import Mathlib

/-!
Verification of the memory-compression and context-assembly core of the
pg-agent-memory repository, as a shallow embedding in Lean 4.

Conventions used throughout:

* JavaScript numbers are modelled as exact numbers: counts as `Nat`/`Int`,
  fractional quantities (importance scores, multipliers, token budgets,
  compression ratios) as `Rat`.
* `Math.ceil(a / b)` on non-negative integers is written with the exact
  integer formula `(a + b - 1) / b` (`Nat` division).
* The exact subword tokenizer (the external `tiktoken` library used by
  `CompressionService.countTokens`) is not reproducible in Lean, so the
  compression-service definitions are parameterised by an arbitrary token
  counting function `tk : String → Nat`.  Every structural theorem holds
  for all such functions; concrete evaluations instantiate `tk` with the
  repository's own heuristic estimator (`estimateTokens` with the openai
  multiplier), which is fully modelled.
* `Array.prototype.sort` with a numeric comparator is stable; the stable
  ascending (resp. descending) order of a list is unique, so it is
  modelled by a stable insertion sort.
* JS `Date` values are modelled by their millisecond epoch value (`Int`);
  the cutoff date computed by `filterByTime` from `new Date()` and
  `timeThresholdDays` is passed in as an explicit `cutoff` parameter.
-/

namespace PgAgentMemory

/-- Message role, from `MessageSchema` (`role: enum user | assistant | system`). -/
inductive Role where
  | user
  | assistant
  | roleSystem
  deriving DecidableEq, Repr

/-- Rendering of a role as it appears in template strings of the source. -/
def Role.render : Role → String
  | .user => "user"
  | .assistant => "assistant"
  | .roleSystem => "system"

/-- A stored memory, from `MessageSchema` in `src/types`:
`id`, `conversation`, `content`, `role`, `importance` (a float in `[0,1]`),
`timestamp` (a `Date`, modelled by epoch milliseconds).
Fields not consulted by any modelled operation (`metadata`, `embedding`,
`expires`) are omitted. -/
structure Message where
  id : String
  conversation : String
  content : String
  role : Role
  importance : ℚ
  timestamp : ℤ
  deriving DecidableEq, Repr

/-- Compression strategy, from `CompressionStrategySchema`. -/
inductive CompressionStrategy where
  | time_based
  | importance_based
  | token_based
  | hybrid
  deriving DecidableEq, Repr

/-- Compression configuration, from `CompressionConfigSchema`.
`timeThresholdDays` participates only through the precomputed `cutoff`
parameter of `filterByTime` (JS `Date` arithmetic), so it is kept as data. -/
structure CompressionConfig where
  strategy : CompressionStrategy
  maxTokensBeforeCompression : ℕ
  compressionRatio : ℚ
  timeThresholdDays : ℚ
  importanceThreshold : ℚ
  preserveRecentCount : ℕ
  deriving DecidableEq, Repr

/-! ### UniversalTokenizer (src/src/tokenization/UniversalTokenizer.ts) -/

/-- Model provider, from `ModelProviderSchema`. -/
inductive Provider where
  | openai
  | anthropic
  | deepseek
  | google
  | meta
  | custom
  deriving DecidableEq, Repr

/-- The `providerMultipliers` table of `UniversalTokenizer`
(openai 1.0, anthropic 1.15, deepseek 0.85, google 1.1, meta 1.25,
custom 1.2), represented exactly as twentieths: the multiplier of `p`
is `multiplierTwentieths p / 20`. -/
def multiplierTwentieths : Provider → ℕ
  | .openai => 20
  | .anthropic => 23
  | .deepseek => 17
  | .google => 22
  | .meta => 25
  | .custom => 24

/-- Model of `UniversalTokenizer.estimateTokens`:
`baseTokens = Math.ceil(text.length / 3.5)`, written exactly as
`(2 * len + 6) / 7`, then `Math.ceil(baseTokens * multiplier)`, written
exactly as `(base * num + 19) / 20` for the multiplier `num / 20`.
An unknown provider string falls back to the custom multiplier in the
source; the model only needs the six known providers. -/
def estimateTokens (text : String) (p : Provider) : ℕ :=
  (((2 * text.length + 6) / 7) * multiplierTwentieths p + 19) / 20

/-- Token counting strategy, from `TokenCountingStrategySchema`. -/
inductive TokenStrategy where
  | precise
  | fast
  | hybrid
  deriving DecidableEq, Repr

/-- Counting method reported in a `TokenCountResult`. -/
inductive TokenMethod where
  | api
  | estimation
  | tiktoken
  deriving DecidableEq, Repr

/-- The parts of a `ModelProviderConfig` that the method-selection logic
reads: the provider family and whether an `apiKey` is configured
(truthiness of `provider.apiKey`). -/
structure ProviderConfig where
  name : String
  provider : Provider
  hasApiKey : Bool
  deriving DecidableEq, Repr

/-- Model of `UniversalTokenizer.shouldUseAPI`: `precise` always, `fast` never,
`hybrid` when the text is shorter than 1000 characters and the provider
config has an `apiKey`. -/
def shouldUseAPI (strategy : TokenStrategy) (textLength : ℕ) (p : ProviderConfig) : Bool :=
  match strategy with
  | .precise => true
  | .fast => false
  | .hybrid => decide (textLength < 1000) && p.hasApiKey

/-- The method chosen by `UniversalTokenizer.countTokensForProvider` for a
registered provider: if `shouldUseAPI` and an `apiKey` is present, go
through `countTokensViaAPI` (which uses tiktoken for the openai family and
estimation otherwise); else `fast` uses estimation; else the openai family
uses tiktoken; else estimation. -/
def countMethod (strategy : TokenStrategy) (textLength : ℕ) (p : ProviderConfig) : TokenMethod :=
  if shouldUseAPI strategy textLength p && p.hasApiKey then
    if p.provider = .openai then .tiktoken else .estimation
  else if strategy = .fast then .estimation
  else if p.provider = .openai then .tiktoken
  else .estimation

/-! ### AgentMemory token counting (src/src/memory/AgentMemory.ts) -/

/-- Default of `MemoryConfigSchema.tokenBuffer` (`z.number().min(0).max(0.5).default(0.1)`). -/
def defaultTokenBuffer : ℚ := 1 / 10

/-- Model of `AgentMemory.countTokens`: the synchronous heuristic estimate for the
configured provider, scaled by the safety buffer:
`Math.ceil(tokens * (1 + this.config.tokenBuffer))`. -/
def countTokensAM (buffer : ℚ) (p : Provider) (text : String) : ℕ :=
  Nat.ceil ((estimateTokens text p : ℚ) * (1 + buffer))

/-- The size-limit check of `AgentMemory.remember`: the message is rejected
(a `TokenLimitExceededError` is thrown) exactly when
`tokenCount > this.config.maxTokens`. -/
def rememberRejected (buffer : ℚ) (p : Provider) (maxTokens : ℚ) (text : String) : Bool :=
  decide (maxTokens < (countTokensAM buffer p text : ℚ))

/-! ### CompressionService (src/compression/CompressionService.ts) -/

/-- Stable insertion of a message into a list already in stable ascending
timestamp order: the new message, which precedes the list's messages in
the original array, goes before every element with an equal or greater
timestamp. -/
def insertByTimestamp (m : Message) : List Message → List Message
  | [] => [m]
  | x :: xs =>
    if x.timestamp < m.timestamp then x :: insertByTimestamp m xs else m :: x :: xs

/-- The source's `[...memories].sort((a, b) => a.timestamp.getTime() -
b.timestamp.getTime())`: a stable ascending sort by timestamp.  JS array
sort is stable and the stable ascending order is unique, so the insertion
sort below is an exact model. -/
def sortByTimestamp : List Message → List Message
  | [] => []
  | m :: ms => insertByTimestamp m (sortByTimestamp ms)

/-- JS `arr.slice(-k)` for a `Nat` argument `k ≤ arr.length`: the last `k`
elements — except that for `k = 0` the call is `slice(-0) = slice(0)` and
returns the whole array. -/
def jsSliceLast (l : List Message) (k : ℕ) : List Message :=
  if k = 0 then l else l.drop (l.length - k)

/-- JS `arr.slice(0, -k)` for a `Nat` argument `k ≤ arr.length`: all but
the last `k` elements — except that for `k = 0` the call is
`slice(0, -0) = slice(0, 0)` and returns the empty array. -/
def jsSliceUpToLast (l : List Message) (k : ℕ) : List Message :=
  if k = 0 then [] else l.take (l.length - k)

/-- Model of `CompressionService.calculateTotalTokens`: the sum of per-content token
counts under the token counter `tk`. -/
def calculateTotalTokens (tk : String → ℕ) (ms : List Message) : ℕ :=
  (ms.map fun m => tk m.content).sum

/-- Model of `CompressionService.filterByTime`: memories strictly older than the
cutoff date (`now` minus `timeThresholdDays`, precomputed by the caller). -/
def filterByTime (cutoff : ℤ) (ms : List Message) : List Message :=
  ms.filter fun m => decide (m.timestamp < cutoff)

/-- Model of `CompressionService.filterByImportance`: memories with importance
strictly below the configured threshold. -/
def filterByImportance (cfg : CompressionConfig) (ms : List Message) : List Message :=
  ms.filter fun m => decide (m.importance < cfg.importanceThreshold)

/-- The loop body of `CompressionService.filterByTokens`: walk the
age-sorted list with a running sum `cur` of the tokens of the memories
kept so far; a memory whose tokens would push `cur` over the threshold is
emitted as a candidate (and `cur` is left unchanged), otherwise it is kept
and its tokens are added to `cur`. -/
def filterByTokensGo (tk : String → ℕ) (maxT : ℕ) : List Message → ℕ → List Message
  | [], _ => []
  | m :: ms, cur =>
    if maxT < cur + tk m.content then m :: filterByTokensGo tk maxT ms cur
    else filterByTokensGo tk maxT ms (cur + tk m.content)

/-- The final value of the running sum `cur` after
`filterByTokensGo` has walked the list. -/
def keptSumAfter (tk : String → ℕ) (maxT : ℕ) : List Message → ℕ → ℕ
  | [], cur => cur
  | m :: ms, cur =>
    if maxT < cur + tk m.content then keptSumAfter tk maxT ms cur
    else keptSumAfter tk maxT ms (cur + tk m.content)

/-- Model of `CompressionService.filterByTokens`: sort by age (oldest first) and run
the running-sum walk starting from zero. -/
def filterByTokens (tk : String → ℕ) (cfg : CompressionConfig) (ms : List Message) :
    List Message :=
  filterByTokensGo tk cfg.maxTokensBeforeCompression (sortByTimestamp ms) 0

/-- Model of `CompressionService.filterHybrid`: collect the ids produced by the
three single-strategy filters into a set and keep the memories whose id is
in it.  The JS `Set` only ever answers membership queries, so it is
modelled by list membership over the concatenated id lists. -/
def filterHybrid (tk : String → ℕ) (cfg : CompressionConfig) (cutoff : ℤ)
    (ms : List Message) : List Message :=
  let eligibleIds :=
    (filterByTime cutoff ms).map (fun m => m.id) ++
      (filterByImportance cfg ms).map (fun m => m.id) ++
      (filterByTokens tk cfg ms).map (fun m => m.id)
  ms.filter fun m => decide (m.id ∈ eligibleIds)

/-- Model of `CompressionService.filterCompressionCandidates`: strategy dispatch
(the `default` arm of the source's `switch` coincides with `hybrid`). -/
def filterCompressionCandidates (tk : String → ℕ) (cfg : CompressionConfig) (cutoff : ℤ)
    (ms : List Message) : List Message :=
  match cfg.strategy with
  | .time_based => filterByTime cutoff ms
  | .importance_based => filterByImportance cfg ms
  | .token_based => filterByTokens tk cfg ms
  | .hybrid => filterHybrid tk cfg cutoff ms

/-- The record returned by `CompressionService.analyzeCompressionCandidates`
(`tokenAnalysis` flattened into the four numeric fields). -/
structure CompressionAnalysis where
  eligible : List Message
  preserved : List Message
  totalTokens : ℕ
  eligibleTokens : ℕ
  preservedTokens : ℕ
  projectedSavings : ℤ
  deriving DecidableEq, Repr

/-- Model of `CompressionService.analyzeCompressionCandidates`: sort ascending by
timestamp, split off the `preserveCount = min(preserveRecentCount, length)`
most recent memories with `slice(-preserveCount)` / `slice(0,
-preserveCount)` (including the JS `-0` behaviour), filter the remaining
candidates by strategy, and compute the token accounting, with
`projectedSavings = Math.floor(eligibleTokens * (1 - compressionRatio))`. -/
def analyzeCompressionCandidates (tk : String → ℕ) (cfg : CompressionConfig) (cutoff : ℤ)
    (memories : List Message) : CompressionAnalysis :=
  let sortedMemories := sortByTimestamp memories
  let preserveCount := min cfg.preserveRecentCount sortedMemories.length
  let preserved := jsSliceLast sortedMemories preserveCount
  let candidates := jsSliceUpToLast sortedMemories preserveCount
  let eligible := filterCompressionCandidates tk cfg cutoff candidates
  let eligibleTokens := calculateTotalTokens tk eligible
  { eligible := eligible
    preserved := preserved
    totalTokens := calculateTotalTokens tk memories
    eligibleTokens := eligibleTokens
    preservedTokens := calculateTotalTokens tk preserved
    projectedSavings := Int.floor ((eligibleTokens : ℚ) * (1 - cfg.compressionRatio)) }

/-! ### Summarizer (CompressionService.compressMemories and helpers) -/

/-- Stable insertion for the descending importance sort of
`generateExtractiveSummary` (`sort((a, b) => b.importance - a.importance)`,
stable): the new message, which precedes the list's messages in the
original array, goes before every element of equal or smaller importance. -/
def insertByImportanceDesc (m : Message) : List Message → List Message
  | [] => [m]
  | x :: xs =>
    if m.importance < x.importance then x :: insertByImportanceDesc m xs
    else m :: x :: xs

/-- Stable descending sort by importance. -/
def sortByImportanceDesc : List Message → List Message
  | [] => []
  | m :: ms => insertByImportanceDesc m (sortByImportanceDesc ms)

/-- JS `arr.join(sep)`. -/
def joinWith (sep : String) : List String → String
  | [] => ""
  | [x] => x
  | x :: y :: xs => x ++ sep ++ joinWith sep (y :: xs)

/-- The grouping key of `groupByConversation`:
`memory.conversation || 'default'` (the empty string is falsy). -/
def convKey (m : Message) : String :=
  if m.conversation = "" then "default" else m.conversation

/-- One insertion step of `groupByConversation`: a JS `Map` keeps keys in
insertion order and `push` appends to the group's array. -/
def insertGroup (k : String) (m : Message) :
    List (String × List Message) → List (String × List Message)
  | [] => [(k, [m])]
  | (k', g) :: rest =>
    if k' = k then (k', g ++ [m]) :: rest else (k', g) :: insertGroup k m rest

/-- Model of `CompressionService.groupByConversation`:
group the memories by conversation key, keeping insertion order of both
keys and group members. -/
def groupByConversation (ms : List Message) : List (String × List Message) :=
  ms.foldl (fun acc m => insertGroup (convKey m) m acc) []

/-- The per-group selection of `generateExtractiveSummary`: keep memories
with `importance >= 0.3`, sort by importance descending, and truncate with
`slice(0, Math.max(3, Math.ceil(msgs.length * 0.3)))` (the ceiling written
exactly as `(3 * n + 9) / 10`). -/
def importantOfGroup (msgs : List Message) : List Message :=
  (sortByImportanceDesc (msgs.filter fun m => decide (mkRat 3 10 ≤ m.importance))).take
    (max 3 ((3 * msgs.length + 9) / 10))

/-- Rendering of one kept memory in the summary text. -/
def renderMessage (m : Message) : String :=
  m.role.render ++ ": " ++ m.content

/-- Model of `CompressionService.generateExtractiveSummary`: each conversation group
with a non-empty selection contributes a bracketed line; the lines are
joined with a blank line. -/
def generateExtractiveSummary (ms : List Message) : String :=
  joinWith "\n\n" ((groupByConversation ms).filterMap fun g =>
    let important := importantOfGroup g.2
    if important.isEmpty then none
    else some ("[" ++ g.1 ++ "] " ++ joinWith " | " (important.map renderMessage)))

/-- The summary record produced by `CompressionService.compressMemories`.
The generated `id`, `createdAt`, `keyTopics`, `importantEntities` and
`metadata` fields of the source's `MemorySummary` are not consulted by any
claim and are omitted. -/
structure MemorySummary where
  agentId : String
  conversationId : String
  timeWindowStart : ℤ
  timeWindowEnd : ℤ
  originalMemoryIds : List String
  summaryContent : String
  compressionRatio : ℚ
  tokenCount : ℕ
  originalTokenCount : ℕ
  deriving Repr

/-- Model of `CompressionService.compressMemories`: throws a `CompressionError` on
the empty list, otherwise sorts chronologically, renders the extractive
summary and reports `compressionRatio = tokenCount / originalTokenCount`.
The conversation id is the explicit argument if given, else the first
memory's conversation if truthy, else the literal string "mixed". -/
def compressMemoriesService (tk : String → ℕ) (agentId : String)
    (conversationId : Option String) (memories : List Message) :
    Except String MemorySummary :=
  if memories.isEmpty then .error "Cannot compress empty memory set"
  else
    let sortedMemories := sortByTimestamp memories
    let originalTokenCount := calculateTotalTokens tk sortedMemories
    let summaryContent := generateExtractiveSummary sortedMemories
    let tokenCount := tk summaryContent
    .ok
      { agentId := agentId
        conversationId := conversationId.getD
          (match sortedMemories.head? with
            | some m => if m.conversation = "" then "mixed" else m.conversation
            | none => "mixed")
        timeWindowStart := ((sortedMemories.map fun m => m.timestamp).min?).getD 0
        timeWindowEnd := ((sortedMemories.map fun m => m.timestamp).max?).getD 0
        originalMemoryIds := sortedMemories.map fun m => m.id
        summaryContent := summaryContent
        compressionRatio := (tokenCount : ℚ) / (originalTokenCount : ℚ)
        tokenCount := tokenCount
        originalTokenCount := originalTokenCount }

/-! ### Context assembly (AgentMemory.getRelevantContext, getSemanticMemories) -/

/-- The selection loop shared verbatim by `AgentMemory.getRelevantContext`
and `AgentMemory.getSemanticMemories`: walk the distance-ranked rows in
the given order with a running token total; admit a row only while
`totalTokens + messageTokens <= maxTokens`, and `break` out of the whole
loop at the first row that would exceed the budget.  Returns the admitted
messages and the reported total (the collected similarity values feed only
the relevance score, which no claim concerns). -/
def packMessages (tcount : String → ℕ) (maxTokens : ℚ) :
    List (Message × ℚ) → ℕ → List Message × ℕ
  | [], total => ([], total)
  | (m, _) :: rest, total =>
    if ((total + tcount m.content : ℕ) : ℚ) ≤ maxTokens then
      let r := packMessages tcount maxTokens rest (total + tcount m.content)
      (m :: r.1, r.2)
    else ([], total)

/-- Model of `AgentMemory.getRelevantContext`: pack the distance-ranked rows under
the budget using the buffered synchronous counter `countTokensAM`. -/
def getRelevantContextModel (buffer : ℚ) (p : Provider) (rows : List (Message × ℚ))
    (maxTokens : ℚ) : List Message × ℕ :=
  packMessages (countTokensAM buffer p) maxTokens rows 0

/-- Model of `AgentMemory.getSemanticMemories`: the identical selection loop,
applied by `getRelevantContextWithCompression` to the 70 percent slice of
the budget. -/
def getSemanticMemoriesModel (buffer : ℚ) (p : Provider) (rows : List (Message × ℚ))
    (maxTokens : ℚ) : List Message × ℕ :=
  packMessages (countTokensAM buffer p) maxTokens rows 0

/-! ### Compression orchestration (AgentMemory.compressMemories) -/

/-- The aggregate record returned by `AgentMemory.compressMemories`
(`createdAt` and `processingTimeMs` are wall-clock bookkeeping and are
omitted). -/
structure CompressionResult where
  agentId : String
  strategy : CompressionStrategy
  memoriesProcessed : ℤ
  memoriesCompressed : ℤ
  memoriesPreserved : ℤ
  originalTokenCount : ℤ
  compressedTokenCount : ℤ
  compressionRatio : ℚ
  tokensReclaimed : ℤ
  summariesCreated : ℤ
  deriving Repr

/-- The orchestrator's grouping of the eligible memories by raw
`memory.conversation` (no default bucket here, unlike the Summarizer's
grouping). -/
def groupEligible (ms : List Message) : List (String × List Message) :=
  ms.foldl (fun acc m => insertGroup m.conversation m acc) []

/-- The per-conversation-group summarisation loop of
`AgentMemory.compressMemories`: each group is summarised (persist/delete
are external side effects), accumulating the compressed-memory count, the
number of summaries created, and the reclaimed tokens
`summary.originalTokenCount - summary.tokenCount`; a failure in any group
aborts the remaining groups. -/
def compressGroups (tk : String → ℕ) (agentId : String) :
    List (String × List Message) → Except String (ℤ × ℤ × ℤ)
  | [] => .ok (0, 0, 0)
  | (cid, ms) :: rest =>
    match compressMemoriesService tk agentId (some cid) ms with
    | .error e => .error e
    | .ok s =>
      match compressGroups tk agentId rest with
      | .error e => .error e
      | .ok (c, n, r) =>
        .ok (c + ms.length, n + 1,
          r + ((s.originalTokenCount : ℤ) - (s.tokenCount : ℤ)))

/-- Model of `AgentMemory.compressMemories`: fetch all memories (passed in as
`allMemories`), analyze, return the no-op result when nothing is eligible
(`memoriesCompressed = 0`, `memoriesPreserved = memoriesProcessed`,
`compressionRatio = 1.0`), otherwise group the eligible memories by
conversation, summarise each group and aggregate, with
`memoriesPreserved = memoriesProcessed - memoriesCompressed`. -/
def compressMemoriesOrch (tk : String → ℕ) (cfg : CompressionConfig) (cutoff : ℤ)
    (agentId : String) (allMemories : List Message) : Except String CompressionResult :=
  let analysis := analyzeCompressionCandidates tk cfg cutoff allMemories
  if analysis.eligible.isEmpty then
    .ok
      { agentId := agentId
        strategy := cfg.strategy
        memoriesProcessed := (allMemories.length : ℤ)
        memoriesCompressed := 0
        memoriesPreserved := (allMemories.length : ℤ)
        originalTokenCount := (analysis.totalTokens : ℤ)
        compressedTokenCount := (analysis.totalTokens : ℤ)
        compressionRatio := 1
        tokensReclaimed := 0
        summariesCreated := 0 }
  else
    (compressGroups tk agentId (groupEligible analysis.eligible)).map fun acc =>
      { agentId := agentId
        strategy := cfg.strategy
        memoriesProcessed := (allMemories.length : ℤ)
        memoriesCompressed := acc.1
        memoriesPreserved := (allMemories.length : ℤ) - acc.1
        originalTokenCount := (analysis.totalTokens : ℤ)
        compressedTokenCount := (analysis.totalTokens : ℤ) - acc.2.2
        compressionRatio :=
          ((analysis.totalTokens : ℚ) - (acc.2.2 : ℚ)) / (analysis.totalTokens : ℚ)
        tokensReclaimed := acc.2.2
        summariesCreated := acc.2.1 }

/-! ### Concrete instances used in evaluations -/

/-- A memory whose importance 0.1 is below the 0.3 extraction floor, with
an 11-character content (4 tokens under `tkOpenai`; the external exact
tokenizer also gives it a positive count and gives the empty summary zero
tokens, so the refutation carries over verbatim). -/
def memLow : Message :=
  { id := "mem_low", conversation := "c1", content := "hello world"
    role := .user, importance := mkRat 1 10, timestamp := 0 }

/-- Concrete token counter for evaluations: the repository's own heuristic
estimator with the openai multiplier (`estimateTokens` is `ceil(len/3.5)`
there).  It agrees with the external exact tokenizer on the facts the
evaluations rely on (positive token count on the used non-empty contents,
zero on the empty string). -/
def tkOpenai : String → ℕ := fun s => estimateTokens s Provider.openai

/-- A compression config with `preserveRecentCount = 0` (allowed by the
schema, which only requires non-negativity); other fields at their
defaults. -/
def cfgPreserveZero : CompressionConfig :=
  { strategy := .hybrid
    maxTokensBeforeCompression := 3000
    compressionRatio := mkRat 3 10
    timeThresholdDays := 7
    importanceThreshold := mkRat 3 10
    preserveRecentCount := 0 }

/-- A single stored memory. -/
def memA : Message :=
  { id := "mem_1", conversation := "c1", content := "hello"
    role := .user, importance := mkRat 1 2, timestamp := 0 }

/-- A token-based config with a threshold of 10 tokens and no preserved
tail. -/
def cfgTokens10 : CompressionConfig :=
  { strategy := .token_based
    maxTokensBeforeCompression := 10
    compressionRatio := mkRat 3 10
    timeThresholdDays := 7
    importanceThreshold := mkRat 3 10
    preserveRecentCount := 0 }

/-- Oldest memory: 28 characters, 8 tokens under `tkOpenai`. -/
def msgT1 : Message :=
  { id := "t1", conversation := "c1", content := String.mk (List.replicate 28 'a')
    role := .user, importance := mkRat 1 2, timestamp := 0 }

/-- Middle memory: 15 characters, 5 tokens under `tkOpenai`. -/
def msgT2 : Message :=
  { id := "t2", conversation := "c1", content := String.mk (List.replicate 15 'b')
    role := .user, importance := mkRat 1 2, timestamp := 1 }

/-- Newest memory: 2 characters, 1 token under `tkOpenai`. -/
def msgT3 : Message :=
  { id := "t3", conversation := "c1", content := String.mk (List.replicate 2 'c')
    role := .user, importance := mkRat 1 2, timestamp := 2 }

/-! ### Theorems -/

/-- Membership is preserved by timestamp insertion. -/
theorem mem_insertByTimestamp {a m : Message} :
    ∀ {l : List Message}, a ∈ insertByTimestamp m l ↔ a = m ∨ a ∈ l := by
  intro l
  induction l with
  | nil => simp [insertByTimestamp]
  | cons x xs ih =>
    by_cases hx : x.timestamp < m.timestamp <;>
      simp [insertByTimestamp, hx, ih, List.mem_cons] <;> tauto

/-- Membership is preserved by the timestamp sort. -/
theorem mem_sortByTimestamp {a : Message} :
    ∀ {l : List Message}, a ∈ sortByTimestamp l ↔ a ∈ l := by
  intro l
  induction l with
  | nil => simp [sortByTimestamp]
  | cons x xs ih => simp [sortByTimestamp, mem_insertByTimestamp, ih, List.mem_cons]

/-- Timestamp insertion adds one element. -/
theorem length_insertByTimestamp (m : Message) :
    ∀ l : List Message, (insertByTimestamp m l).length = l.length + 1 := by
  intro l
  induction l with
  | nil => rfl
  | cons x xs ih =>
    by_cases hx : x.timestamp < m.timestamp <;> simp [insertByTimestamp, hx, ih]

/-- The timestamp sort preserves length. -/
theorem length_sortByTimestamp :
    ∀ l : List Message, (sortByTimestamp l).length = l.length := by
  intro l
  induction l with
  | nil => rfl
  | cons x xs ih => simp [sortByTimestamp, length_insertByTimestamp, ih]

/-- The token-based walk emits a sublist of its input. -/
theorem filterByTokensGo_sublist (tk : String → ℕ) (maxT : ℕ) :
    ∀ (l : List Message) (cur : ℕ), (filterByTokensGo tk maxT l cur).Sublist l := by
  intro l
  induction l with
  | nil => intro cur; simp [filterByTokensGo]
  | cons m ms ih =>
    intro cur
    by_cases hm : maxT < cur + tk m.content
    · simpa [filterByTokensGo, hm] using (ih cur).cons₂ m
    · simpa [filterByTokensGo, hm] using (ih (cur + tk m.content)).cons m

/-- The running sum of kept memories never exceeds the threshold (as long
as it starts at or below it). -/
theorem keptSumAfter_le (tk : String → ℕ) (maxT : ℕ) :
    ∀ (l : List Message) (cur : ℕ), cur ≤ maxT → keptSumAfter tk maxT l cur ≤ maxT := by
  intro l
  induction l with
  | nil => intro cur h; simpa [keptSumAfter] using h
  | cons m ms ih =>
    intro cur h
    by_cases hm : maxT < cur + tk m.content
    · simpa [keptSumAfter, hm] using ih cur h
    · simpa [keptSumAfter, hm] using ih (cur + tk m.content) (by omega)

/-- The token-based walk splits over list append, threading the running
sum of the kept memories. -/
theorem filterByTokensGo_append (tk : String → ℕ) (maxT : ℕ) :
    ∀ (xs ys : List Message) (cur : ℕ),
      filterByTokensGo tk maxT (xs ++ ys) cur =
        filterByTokensGo tk maxT xs cur ++
          filterByTokensGo tk maxT ys (keptSumAfter tk maxT xs cur) := by
  intro xs
  induction xs with
  | nil => intro ys cur; simp [filterByTokensGo, keptSumAfter]
  | cons m ms ih =>
    intro ys cur
    by_cases hm : maxT < cur + tk m.content <;>
      simp [filterByTokensGo, keptSumAfter, hm, ih]

/-- C1 (code bug, evaluated at the failing input): with
`preserveRecentCount = 0` and one stored memory, the analyzer's `preserved`
set is the whole memory list (`slice(-0)` returns the entire array), of
length 1, although `min(preserveRecentCount, totalMemories) = 0` — the
claimed (and intended) preserved size. -/
theorem analyze_preserveRecentZero_bug :
    (analyzeCompressionCandidates tkOpenai cfgPreserveZero 0 [memA]).preserved = [memA] ∧
    (analyzeCompressionCandidates tkOpenai cfgPreserveZero 0 [memA]).eligible = [] ∧
    min cfgPreserveZero.preserveRecentCount 1 = 0 := by
  exact ⟨rfl, rfl, rfl⟩

/-- C2 (counterexample): under the token-based strategy with threshold 10
and age-ordered candidates of 8, 5 and 1 tokens, the walk keeps the first
(sum 8), marks the second eligible (8 + 5 > 10) but then keeps the third
(8 + 1 ≤ 10): the eligible set is `[msgT2]`, the memory after the first
exceeding one is not eligible, and the eligible set is not a suffix of the
sorted candidates — refuting the claim's suffix property. -/
theorem filterByTokens_not_suffix :
    filterByTokens tkOpenai cfgTokens10 [msgT1, msgT2, msgT3] = [msgT2] ∧
    sortByTimestamp [msgT1, msgT2, msgT3] = [msgT1, msgT2, msgT3] ∧
    msgT3 ∉ filterByTokens tkOpenai cfgTokens10 [msgT1, msgT2, msgT3] ∧
    ¬ (filterByTokens tkOpenai cfgTokens10 [msgT1, msgT2, msgT3] <:+
        sortByTimestamp [msgT1, msgT2, msgT3]) := by
  refine ⟨rfl, rfl, ?_, ?_⟩ <;> decide

/-- C2 (amended): walking the age-sorted candidates with a running sum of
the kept (ineligible) memories, a memory is eligible exactly when adding
its tokens to the running kept sum would exceed
`maxTokensBeforeCompression`; eligible memories leave the running sum
unchanged (so later, smaller memories can still be kept and the eligible
set need not be a suffix), and the kept memories' total token sum never
exceeds the threshold. -/
theorem filterByTokens_running_sum (tk : String → ℕ) (cfg : CompressionConfig)
    (candidates pre post : List Message) (m : Message)
    (h : sortByTimestamp candidates = pre ++ m :: post) :
    filterByTokens tk cfg candidates =
      filterByTokensGo tk cfg.maxTokensBeforeCompression pre 0 ++
        (if cfg.maxTokensBeforeCompression <
              keptSumAfter tk cfg.maxTokensBeforeCompression pre 0 + tk m.content
          then m :: filterByTokensGo tk cfg.maxTokensBeforeCompression post
              (keptSumAfter tk cfg.maxTokensBeforeCompression pre 0)
          else filterByTokensGo tk cfg.maxTokensBeforeCompression post
              (keptSumAfter tk cfg.maxTokensBeforeCompression pre 0 + tk m.content)) ∧
    keptSumAfter tk cfg.maxTokensBeforeCompression (sortByTimestamp candidates) 0 ≤
      cfg.maxTokensBeforeCompression := by
  constructor
  · rw [filterByTokens, h, filterByTokensGo_append]
    by_cases hm : cfg.maxTokensBeforeCompression <
        keptSumAfter tk cfg.maxTokensBeforeCompression pre 0 + tk m.content <;>
      simp [filterByTokensGo, hm]
  · exact keptSumAfter_le tk cfg.maxTokensBeforeCompression _ 0 (Nat.zero_le _)

/-- C2 (witness): the amended characterisation evaluated on the concrete
8/5/1-token candidates with threshold 10, at the decomposition around the
middle memory. -/
theorem filterByTokens_running_sum_witness :
    (filterByTokens tkOpenai cfgTokens10 [msgT1, msgT2, msgT3] =
      filterByTokensGo tkOpenai cfgTokens10.maxTokensBeforeCompression [msgT1] 0 ++
        (if cfgTokens10.maxTokensBeforeCompression <
              keptSumAfter tkOpenai cfgTokens10.maxTokensBeforeCompression [msgT1] 0 +
                tkOpenai msgT2.content
          then msgT2 :: filterByTokensGo tkOpenai cfgTokens10.maxTokensBeforeCompression
              [msgT3] (keptSumAfter tkOpenai cfgTokens10.maxTokensBeforeCompression [msgT1] 0)
          else filterByTokensGo tkOpenai cfgTokens10.maxTokensBeforeCompression [msgT3]
              (keptSumAfter tkOpenai cfgTokens10.maxTokensBeforeCompression [msgT1] 0 +
                tkOpenai msgT2.content))) ∧
    keptSumAfter tkOpenai cfgTokens10.maxTokensBeforeCompression
        (sortByTimestamp [msgT1, msgT2, msgT3]) 0 ≤
      cfgTokens10.maxTokensBeforeCompression :=
  filterByTokens_running_sum tkOpenai cfgTokens10 [msgT1, msgT2, msgT3] [msgT1] [msgT3]
    msgT2 rfl

/-- Two members of a list whose ids are pairwise distinct and whose ids
agree are the same message. -/
theorem id_inj_of_pairwise {ms : List Message}
    (h : ms.Pairwise fun a b => a.id ≠ b.id) :
    ∀ {a b : Message}, a ∈ ms → b ∈ ms → a.id = b.id → a = b := by
  induction ms with
  | nil => intro a b ha; simp at ha
  | cons x xs ih =>
    intro a b ha hb heq
    rcases List.pairwise_cons.mp h with ⟨hx, hxs⟩
    rcases List.mem_cons.mp ha with rfl | ha' <;> rcases List.mem_cons.mp hb with rfl | hb'
    · rfl
    · exact absurd heq (hx _ hb')
    · exact absurd heq.symm (hx _ ha')
    · exact ih hxs ha' hb' heq

/-- Members of the token-based filter output come from the input pool. -/
theorem filterByTokens_subset {tk : String → ℕ} {cfg : CompressionConfig}
    {ms : List Message} {a : Message} (h : a ∈ filterByTokens tk cfg ms) : a ∈ ms :=
  mem_sortByTimestamp.mp
    ((filterByTokensGo_sublist tk cfg.maxTokensBeforeCompression
      (sortByTimestamp ms) 0).mem h)

/-- C4: on a candidate pool with pairwise-distinct ids, a memory is in the
hybrid filter's output exactly when at least one of the three
single-strategy filters (run independently on the same pool) contains it. -/
theorem filterHybrid_eq_union (tk : String → ℕ) (cfg : CompressionConfig) (cutoff : ℤ)
    (ms : List Message) (hids : ms.Pairwise fun a b => a.id ≠ b.id) (m : Message) :
    m ∈ filterHybrid tk cfg cutoff ms ↔
      (m ∈ filterByTime cutoff ms ∨ m ∈ filterByImportance cfg ms ∨
        m ∈ filterByTokens tk cfg ms) := by
  have hsubT : ∀ {a : Message}, a ∈ filterByTime cutoff ms → a ∈ ms := by
    intro a ha; exact (List.mem_filter.mp ha).1
  have hsubI : ∀ {a : Message}, a ∈ filterByImportance cfg ms → a ∈ ms := by
    intro a ha; exact (List.mem_filter.mp ha).1
  constructor
  · intro hm
    rcases List.mem_filter.mp hm with ⟨hmem, hid⟩
    rw [decide_eq_true_iff] at hid
    simp only [List.mem_append, List.mem_map] at hid
    rcases hid with (⟨b, hb, hbid⟩ | ⟨b, hb, hbid⟩) | ⟨b, hb, hbid⟩
    · exact Or.inl (id_inj_of_pairwise hids (hsubT hb) hmem hbid ▸ hb)
    · exact Or.inr (Or.inl (id_inj_of_pairwise hids (hsubI hb) hmem hbid ▸ hb))
    · exact Or.inr (Or.inr (id_inj_of_pairwise hids (filterByTokens_subset hb) hmem hbid ▸ hb))
  · intro hm
    have hmem : m ∈ ms := by
      rcases hm with h | h | h
      · exact hsubT h
      · exact hsubI h
      · exact filterByTokens_subset h
    refine List.mem_filter.mpr ⟨hmem, ?_⟩
    rw [decide_eq_true_iff]
    simp only [List.mem_append, List.mem_map]
    rcases hm with h | h | h
    · exact Or.inl (Or.inl ⟨m, h, rfl⟩)
    · exact Or.inl (Or.inr ⟨m, h, rfl⟩)
    · exact Or.inr ⟨m, h, rfl⟩

/-- C4 (witness): the hybrid-equals-union equivalence evaluated on the
concrete three-memory pool with distinct ids. -/
theorem filterHybrid_eq_union_witness :
    msgT2 ∈ filterHybrid tkOpenai cfgTokens10 0 [msgT1, msgT2, msgT3] ↔
      (msgT2 ∈ filterByTime 0 [msgT1, msgT2, msgT3] ∨
        msgT2 ∈ filterByImportance cfgTokens10 [msgT1, msgT2, msgT3] ∨
        msgT2 ∈ filterByTokens tkOpenai cfgTokens10 [msgT1, msgT2, msgT3]) :=
  filterHybrid_eq_union tkOpenai cfgTokens10 0 [msgT1, msgT2, msgT3] (by decide) msgT2

/-- Helper: the heuristic estimate of a non-empty text is positive. -/
theorem estimateTokens_pos (t : String) (p : Provider) (h : 0 < t.length) :
    0 < estimateTokens t p := by
  unfold estimateTokens
  have h17 : 17 ≤ multiplierTwentieths p := by
    cases p <;> simp [multiplierTwentieths]
  have hbase : 1 ≤ (2 * t.length + 6) / 7 := by omega
  have : 17 ≤ ((2 * t.length + 6) / 7) * multiplierTwentieths p :=
    le_trans h17 (Nat.le_mul_of_pos_left _ (by omega))
  omega

/-- C8 (counterexample): for the one-character text "a" the estimates are
openai 1, anthropic 2, deepseek 1, so the claimed strict ordering
`estimate(openai) > estimate(deepseek)` fails (they are equal); the
claimed for-every-text strict chain is therefore false. -/
theorem estimateTokens_ordering_fails_short :
    ("a".length = 1) ∧
    estimateTokens "a" Provider.openai = 1 ∧
    estimateTokens "a" Provider.anthropic = 2 ∧
    estimateTokens "a" Provider.deepseek = 1 ∧
    ¬ (estimateTokens "a" Provider.deepseek < estimateTokens "a" Provider.openai) := by
  refine ⟨rfl, rfl, rfl, rfl, ?_⟩
  decide

/-- C8 (amended): the heuristic estimate is
`ceil(ceil(len / 3.5) × multiplier)` with the table openai 1.0,
anthropic 1.15, deepseek 0.85 (as in `estimateTokens`); for every
non-empty text `estimate(anthropic) > estimate(openai)`, and the full
strict chain `estimate(anthropic) > estimate(openai) > estimate(deepseek)`
holds exactly for texts of length at least 22, while for lengths 1 to 21
the openai and deepseek estimates coincide. -/
theorem estimateTokens_ordering (t : String) :
    (1 ≤ t.length →
      estimateTokens t Provider.openai < estimateTokens t Provider.anthropic) ∧
    (22 ≤ t.length →
      estimateTokens t Provider.deepseek < estimateTokens t Provider.openai ∧
      estimateTokens t Provider.openai < estimateTokens t Provider.anthropic) ∧
    (1 ≤ t.length → t.length ≤ 21 →
      estimateTokens t Provider.openai = estimateTokens t Provider.deepseek) := by
  unfold estimateTokens multiplierTwentieths
  simp only
  omega

/-- C8 (witness): the 35-character spec example text gives 10 (openai),
12 (anthropic), 9 (deepseek) tokens, and the strict ordering holds there. -/
theorem estimateTokens_ordering_witness :
    ("Hello world, this is a test message".length = 35) ∧
    estimateTokens "Hello world, this is a test message" Provider.openai = 10 ∧
    estimateTokens "Hello world, this is a test message" Provider.anthropic = 12 ∧
    estimateTokens "Hello world, this is a test message" Provider.deepseek = 9 ∧
    (estimateTokens "Hello world, this is a test message" Provider.deepseek <
      estimateTokens "Hello world, this is a test message" Provider.openai ∧
     estimateTokens "Hello world, this is a test message" Provider.openai <
      estimateTokens "Hello world, this is a test message" Provider.anthropic) :=
  ⟨rfl, rfl, rfl, rfl,
    (estimateTokens_ordering "Hello world, this is a test message").2.1 (by decide)⟩

/-- C9 (counterexample): under the `hybrid` strategy, a registered openai
provider with no `apiKey` and a text of exactly 1000 characters is counted
with the exact tokenizer (method `tiktoken`), although the claim demands
the heuristic estimate whenever the text is not shorter than 1000
characters or the provider is not API-capable. -/
theorem countMethod_hybrid_claim_fails :
    countMethod TokenStrategy.hybrid 1000
        { name := "default-openai", provider := Provider.openai, hasApiKey := false } =
      TokenMethod.tiktoken ∧
    ¬ (1000 < 1000 ∧
        ({ name := "default-openai", provider := Provider.openai,
           hasApiKey := false } : ProviderConfig).hasApiKey = true) := by
  exact ⟨rfl, by decide⟩

/-- C9 (amended): under the `hybrid` strategy on a registered provider the
exact tokenizer (method `tiktoken`) is used if and only if the provider's
family is openai, regardless of text length and of whether an `apiKey` is
configured; every non-openai provider gets the heuristic estimate
(method `estimation`). -/
theorem countMethod_hybrid_iff_openai (textLength : ℕ) (p : ProviderConfig) :
    countMethod TokenStrategy.hybrid textLength p = TokenMethod.tiktoken ↔
      p.provider = Provider.openai := by
  unfold countMethod shouldUseAPI
  by_cases hk : p.hasApiKey <;> by_cases hp : p.provider = Provider.openai <;>
    by_cases hlen : textLength < 1000 <;>
    simp [hk, hp, hlen]

/-- C10: the synchronous token count used by `AgentMemory` (the `remember`
size check and the context-packing running sums) is
`ceil(estimateTokens(text, provider) × (1 + tokenBuffer))` with the buffer
defaulting to 0.1; for a non-negative buffer this count is at least the
raw heuristic estimate, and `remember` rejects exactly when the count
exceeds `maxTokens`. -/
theorem countTokensAM_spec (buffer : ℚ) (p : Provider) (t : String) (hb : 0 ≤ buffer) :
    countTokensAM buffer p t = Nat.ceil ((estimateTokens t p : ℚ) * (1 + buffer)) ∧
    estimateTokens t p ≤ countTokensAM buffer p t ∧
    defaultTokenBuffer = 1 / 10 ∧
    (∀ maxTokens : ℚ, rememberRejected buffer p maxTokens t = true ↔
      maxTokens < (countTokensAM buffer p t : ℚ)) := by
  refine ⟨rfl, ?_, rfl, fun maxTokens => by simp [rememberRejected]⟩
  have h1 : ((estimateTokens t p : ℚ)) ≤ (estimateTokens t p : ℚ) * (1 + buffer) := by
    nlinarith [Nat.cast_nonneg (α := ℚ) (estimateTokens t p)]
  calc estimateTokens t p
      = Nat.ceil ((estimateTokens t p : ℚ)) := (Nat.ceil_natCast _).symm
    _ ≤ Nat.ceil ((estimateTokens t p : ℚ) * (1 + buffer)) := Nat.ceil_mono h1

/-- C10 (witness): with the default buffer 0.1 and the openai provider, the
35-character example yields a count of 11, at least the raw estimate 10,
and a 4000-token limit does not reject it. -/
theorem countTokensAM_spec_witness :
    (0 : ℚ) ≤ defaultTokenBuffer ∧
    estimateTokens "Hello world, this is a test message" Provider.openai ≤
      countTokensAM defaultTokenBuffer Provider.openai
        "Hello world, this is a test message" :=
  ⟨by norm_num [defaultTokenBuffer],
    (countTokensAM_spec defaultTokenBuffer Provider.openai
      "Hello world, this is a test message"
      (by norm_num [defaultTokenBuffer])).2.1⟩

/-- Timestamp insertion adds the inserted content's tokens to the total. -/
theorem calculateTotalTokens_insertByTimestamp (tk : String → ℕ) (m : Message) :
    ∀ l : List Message,
      calculateTotalTokens tk (insertByTimestamp m l) =
        tk m.content + calculateTotalTokens tk l := by
  intro l
  induction l with
  | nil => simp [calculateTotalTokens, insertByTimestamp]
  | cons x xs ih =>
    by_cases hx : x.timestamp < m.timestamp <;>
      simp [calculateTotalTokens, insertByTimestamp, hx] <;>
      simp [calculateTotalTokens] at ih <;> omega

/-- The timestamp sort preserves the token total. -/
theorem calculateTotalTokens_sortByTimestamp (tk : String → ℕ) :
    ∀ l : List Message,
      calculateTotalTokens tk (sortByTimestamp l) = calculateTotalTokens tk l := by
  intro l
  induction l with
  | nil => rfl
  | cons x xs ih =>
    simp only [sortByTimestamp, calculateTotalTokens_insertByTimestamp, ih]
    simp [calculateTotalTokens]

/-- Importance insertion adds one element. -/
theorem length_insertByImportanceDesc (m : Message) :
    ∀ l : List Message, (insertByImportanceDesc m l).length = l.length + 1 := by
  intro l
  induction l with
  | nil => rfl
  | cons x xs ih =>
    by_cases hx : m.importance < x.importance <;> simp [insertByImportanceDesc, hx, ih]

/-- The descending importance sort preserves length. -/
theorem length_sortByImportanceDesc :
    ∀ l : List Message, (sortByImportanceDesc l).length = l.length := by
  intro l
  induction l with
  | nil => rfl
  | cons x xs ih => simp [sortByImportanceDesc, length_insertByImportanceDesc, ih]

/-- A join is at least as long as any of its parts. -/
theorem joinWith_length_ge (sep : String) :
    ∀ (l : List String) (p : String), p ∈ l → p.length ≤ (joinWith sep l).length := by
  intro l
  induction l with
  | nil => intro p hp; simp at hp
  | cons x xs ih =>
    intro p hp
    cases xs with
    | nil =>
      rcases List.mem_singleton.mp hp with rfl
      simp [joinWith]
    | cons y ys =>
      have hjoin : joinWith sep (x :: y :: ys) = x ++ sep ++ joinWith sep (y :: ys) := rfl
      rw [hjoin, String.length_append, String.length_append]
      rcases List.mem_cons.mp hp with rfl | hp'
      · omega
      · have := ih p hp'
        omega

/-- The group receiving a new message contains it. -/
theorem insertGroup_self (k : String) (m : Message) :
    ∀ acc : List (String × List Message),
      ∃ g ∈ insertGroup k m acc, m ∈ g.2 := by
  intro acc
  induction acc with
  | nil => exact ⟨(k, [m]), by simp [insertGroup]⟩
  | cons hd rest ih =>
    obtain ⟨k', g'⟩ := hd
    by_cases hk : k' = k
    · exact ⟨(k', g' ++ [m]), by simp [insertGroup, hk]⟩
    · obtain ⟨g, hg, hmg⟩ := ih
      exact ⟨g, by simp [insertGroup, hk, hg], hmg⟩

/-- Group insertion preserves existing group members. -/
theorem insertGroup_mono (k : String) (m : Message) {x : Message} :
    ∀ (acc : List (String × List Message)) (g : String × List Message),
      g ∈ acc → x ∈ g.2 → ∃ g' ∈ insertGroup k m acc, x ∈ g'.2 := by
  intro acc
  induction acc with
  | nil => intro g hg; simp at hg
  | cons hd rest ih =>
    intro g hg hx
    obtain ⟨k', h'⟩ := hd
    by_cases hk : k' = k
    · rcases List.mem_cons.mp hg with rfl | hg'
      · exact ⟨(k', h' ++ [m]), by simp [insertGroup, hk], by simp [List.mem_append]; left; exact hx⟩
      · exact ⟨g, by simp [insertGroup, hk, hg'], hx⟩
    · rcases List.mem_cons.mp hg with rfl | hg'
      · exact ⟨(k', h'), by simp [insertGroup, hk], hx⟩
      · obtain ⟨g', hg'', hx'⟩ := ih g hg' hx
        exact ⟨g', by simp [insertGroup, hk, hg''], hx'⟩

/-- The grouping fold preserves existing group members. -/
theorem groupFold_mono {x : Message} :
    ∀ (ms : List Message) (acc : List (String × List Message)),
      (∃ g ∈ acc, x ∈ g.2) →
      ∃ g ∈ List.foldl (fun a m => insertGroup (convKey m) m a) acc ms, x ∈ g.2 := by
  intro ms
  induction ms with
  | nil => intro acc h; simpa using h
  | cons m ms ih =>
    intro acc h
    obtain ⟨g, hg, hx⟩ := h
    obtain ⟨g', hg', hx'⟩ := insertGroup_mono (convKey m) m acc g hg hx
    exact ih _ ⟨g', hg', hx'⟩

/-- Every memory ends up in some group of the grouping fold. -/
theorem exists_group_mem_fold {x : Message} :
    ∀ (ms : List Message) (acc : List (String × List Message)), x ∈ ms →
      ∃ g ∈ List.foldl (fun a m => insertGroup (convKey m) m a) acc ms, x ∈ g.2 := by
  intro ms
  induction ms with
  | nil => intro acc h; simp at h
  | cons m ms ih =>
    intro acc h
    rcases List.mem_cons.mp h with rfl | h'
    · exact groupFold_mono ms _ (insertGroup_self (convKey x) x acc)
    · exact ih _ h'

/-- Every memory ends up in some conversation group. -/
theorem exists_group_mem (ms : List Message) (x : Message) (h : x ∈ ms) :
    ∃ g ∈ groupByConversation ms, x ∈ g.2 :=
  exists_group_mem_fold ms [] h

/-- A group containing a memory above the importance floor has a non-empty
extractive selection. -/
theorem importantOfGroup_ne_nil {msgs : List Message} {m : Message}
    (hm : m ∈ msgs) (him : mkRat 3 10 ≤ m.importance) :
    importantOfGroup msgs ≠ [] := by
  have hf : m ∈ msgs.filter (fun x => decide (mkRat 3 10 ≤ x.importance)) :=
    List.mem_filter.mpr ⟨hm, decide_eq_true him⟩
  have hlen :
      0 < (sortByImportanceDesc
        (msgs.filter fun x => decide (mkRat 3 10 ≤ x.importance))).length := by
    rw [length_sortByImportanceDesc]
    exact List.length_pos_of_mem hf
  unfold importantOfGroup
  cases hcase : sortByImportanceDesc
      (msgs.filter fun x => decide (mkRat 3 10 ≤ x.importance)) with
  | nil => rw [hcase] at hlen; simp at hlen
  | cons a l =>
    cases hmax : max 3 ((3 * msgs.length + 9) / 10) with
    | zero =>
      have h3 : 3 ≤ max 3 ((3 * msgs.length + 9) / 10) := le_max_left _ _
      omega
    | succ k => simp [List.take]

/-- A memory set containing a memory above the importance floor yields a
non-empty extractive summary text. -/
theorem generateExtractiveSummary_length_pos (ms : List Message)
    (h : ∃ m ∈ ms, mkRat 3 10 ≤ m.importance) :
    0 < (generateExtractiveSummary ms).length := by
  obtain ⟨m, hm, him⟩ := h
  obtain ⟨g, hg, hmg⟩ := exists_group_mem ms m hm
  have hne : importantOfGroup g.2 ≠ [] := importantOfGroup_ne_nil hmg him
  have hEmpty : (importantOfGroup g.2).isEmpty = false := by
    cases hcase : importantOfGroup g.2 with
    | nil => exact absurd hcase hne
    | cons a l => rfl
  have hpart :
      ("[" ++ g.1 ++ "] " ++ joinWith " | " ((importantOfGroup g.2).map renderMessage)) ∈
        ((groupByConversation ms).filterMap fun g' =>
          let important := importantOfGroup g'.2
          if important.isEmpty then none
          else some ("[" ++ g'.1 ++ "] " ++ joinWith " | " (important.map renderMessage))) := by
    refine List.mem_filterMap.mpr ⟨g, hg, ?_⟩
    simp [hEmpty]
  have hlen := joinWith_length_ge "\n\n" _ _ hpart
  have h1 : ("[" : String).length = 1 := rfl
  have hpos :
      0 < ("[" ++ g.1 ++ "] " ++
        joinWith " | " ((importantOfGroup g.2).map renderMessage)).length := by
    rw [String.length_append, String.length_append, String.length_append]
    omega
  exact lt_of_lt_of_le hpos hlen

/-- C7: the Summarizer raises a `CompressionError` ("Cannot compress empty
memory set") on the empty memory list; no summary value is produced. -/
theorem compressMemories_empty_error (tk : String → ℕ) (agentId : String)
    (conversationId : Option String) :
    compressMemoriesService tk agentId conversationId [] =
      Except.error "Cannot compress empty memory set" := rfl

/-- C3 (counterexample): on the non-empty list containing only `memLow`
(importance 0.1, below the 0.3 extraction floor), the produced summary has
empty text, zero tokens, positive original token count, and
`compressionRatio = 0` — refuting the claimed `0 < compressionRatio`. -/
theorem compressMemories_ratio_zero :
    ∃ s, compressMemoriesService tkOpenai "agent" none [memLow] = Except.ok s ∧
      s.summaryContent = "" ∧ s.tokenCount = 0 ∧ s.originalTokenCount = 4 ∧
      s.compressionRatio = 0 ∧ ¬ (0 < s.compressionRatio) := by
  refine ⟨_, rfl, rfl, rfl, rfl, ?_, ?_⟩
  · show ((0 : ℕ) : ℚ) / ((4 : ℕ) : ℚ) = 0
    norm_num
  · show ¬ ((0 : ℚ) < ((0 : ℕ) : ℚ) / ((4 : ℕ) : ℚ))
    norm_num

/-- C3 (amended): for every token counter that is positive on non-empty
strings (as the exact tokenizer is), every non-empty memory list containing
at least one memory above the 0.3 importance floor and having positive
original token count yields a summary with `0 < compressionRatio`, where
the ratio is exactly `tokenCount / originalTokenCount`.  The claimed
`tokenCount ≤ originalTokenCount` does not hold in general (the decorated
summary text can exceed the original contents), and without a memory above
the floor the summary text is empty, giving ratio 0. -/
theorem compressMemories_ratio_pos (tk : String → ℕ) (agentId : String)
    (conversationId : Option String) (memories : List Message)
    (htk : ∀ s : String, 0 < s.length → 0 < tk s)
    (hne : memories ≠ [])
    (himp : ∃ m ∈ memories, mkRat 3 10 ≤ m.importance)
    (horig : 0 < calculateTotalTokens tk memories) :
    ∃ s, compressMemoriesService tk agentId conversationId memories = Except.ok s ∧
      0 < s.compressionRatio ∧
      s.compressionRatio = (s.tokenCount : ℚ) / (s.originalTokenCount : ℚ) := by
  have hEmpty : memories.isEmpty = false := by
    cases memories with
    | nil => exact absurd rfl hne
    | cons a l => rfl
  simp only [compressMemoriesService, hEmpty, Bool.false_eq_true, if_false]
  refine ⟨_, rfl, ?_, rfl⟩
  have h1 : 0 < tk (generateExtractiveSummary (sortByTimestamp memories)) := by
    refine htk _ (generateExtractiveSummary_length_pos _ ?_)
    obtain ⟨m, hm, him⟩ := himp
    exact ⟨m, mem_sortByTimestamp.mpr hm, him⟩
  have h2 : 0 < calculateTotalTokens tk (sortByTimestamp memories) := by
    rw [calculateTotalTokens_sortByTimestamp]
    exact horig
  exact div_pos (by exact_mod_cast h1) (by exact_mod_cast h2)

/-- C3 (witness): the amended statement applied to the single memory
`memA` (importance 0.5, above the floor) with the heuristic counter. -/
theorem compressMemories_ratio_pos_witness :
    ∃ s, compressMemoriesService tkOpenai "agent" none [memA] = Except.ok s ∧
      0 < s.compressionRatio ∧
      s.compressionRatio = (s.tokenCount : ℚ) / (s.originalTokenCount : ℚ) :=
  compressMemories_ratio_pos tkOpenai "agent" none [memA]
    (fun s hs => estimateTokens_pos s Provider.openai hs)
    (by decide)
    ⟨memA, by decide, by decide⟩
    (by decide)

/-- Full specification of the packing loop, generalised over the running
total: the reported total stays within the budget, equals the initial
total plus the admitted messages' token sum, the admitted messages are an
in-order prefix of the rows, and the row right after the admitted prefix
(when one exists) would exceed the budget. -/
theorem packMessages_spec (tcount : String → ℕ) (maxTokens : ℚ) :
    ∀ (rows : List (Message × ℚ)) (total : ℕ), (total : ℚ) ≤ maxTokens →
      ((packMessages tcount maxTokens rows total).2 : ℚ) ≤ maxTokens ∧
      (packMessages tcount maxTokens rows total).2 =
        total + ((packMessages tcount maxTokens rows total).1.map
          fun m => tcount m.content).sum ∧
      (packMessages tcount maxTokens rows total).1 <+: rows.map Prod.fst ∧
      (∀ (m : Message) (rest : List Message),
        rows.map Prod.fst = (packMessages tcount maxTokens rows total).1 ++ m :: rest →
        maxTokens < (((packMessages tcount maxTokens rows total).2 + tcount m.content : ℕ) : ℚ)) := by
  intro rows
  induction rows with
  | nil =>
    intro total h
    refine ⟨h, by simp [packMessages], ⟨[], rfl⟩, ?_⟩
    intro m rest hdec
    simp [packMessages] at hdec
  | cons row rows ih =>
    obtain ⟨m0, d0⟩ := row
    intro total h
    by_cases hfit : ((total + tcount m0.content : ℕ) : ℚ) ≤ maxTokens
    · have heq : packMessages tcount maxTokens ((m0, d0) :: rows) total =
          (m0 :: (packMessages tcount maxTokens rows (total + tcount m0.content)).1,
            (packMessages tcount maxTokens rows (total + tcount m0.content)).2) := by
        simp only [packMessages]
        rw [if_pos hfit]
      obtain ⟨ih1, ih2, ih3, ih4⟩ := ih (total + tcount m0.content) hfit
      rw [heq]
      refine ⟨ih1, ?_, ?_, ?_⟩
      · simp only [List.map_cons, List.sum_cons]
        omega
      · obtain ⟨t, ht⟩ := ih3
        exact ⟨t, by simp [← ht]⟩
      · intro m rest hdec
        simp only [List.map_cons, List.cons_append, List.cons.injEq] at hdec
        exact ih4 m rest hdec.2
    · have heq : packMessages tcount maxTokens ((m0, d0) :: rows) total = ([], total) := by
        simp only [packMessages]
        rw [if_neg hfit]
      rw [heq]
      refine ⟨h, by simp, ⟨_, rfl⟩, ?_⟩
      intro m rest hdec
      simp only [List.map_cons, List.nil_append, List.cons.injEq] at hdec
      rw [← hdec.1]
      exact lt_of_not_le hfit

/-- C5: for every distance-ranked row list and every non-negative budget,
the selection of `getRelevantContext` (and the identical
`getSemanticMemories`) reports a summed token count within `maxTokens`
that equals the sum of the admitted messages' counts; the admitted
messages are an in-order prefix of the candidates, and iteration halts at
the first candidate whose addition would exceed the budget, admitting no
later candidate even if it would fit. -/
theorem getRelevantContext_budget (buffer : ℚ) (p : Provider)
    (rows : List (Message × ℚ)) (maxTokens : ℚ) (h : 0 ≤ maxTokens) :
    (((getRelevantContextModel buffer p rows maxTokens).2 : ℚ) ≤ maxTokens) ∧
    (getRelevantContextModel buffer p rows maxTokens).2 =
      ((getRelevantContextModel buffer p rows maxTokens).1.map
        fun m => countTokensAM buffer p m.content).sum ∧
    (getRelevantContextModel buffer p rows maxTokens).1 <+: rows.map Prod.fst ∧
    (∀ (m : Message) (rest : List Message),
      rows.map Prod.fst = (getRelevantContextModel buffer p rows maxTokens).1 ++ m :: rest →
      maxTokens < (((getRelevantContextModel buffer p rows maxTokens).2 +
        countTokensAM buffer p m.content : ℕ) : ℚ)) ∧
    getSemanticMemoriesModel buffer p rows maxTokens =
      getRelevantContextModel buffer p rows maxTokens := by
  obtain ⟨h1, h2, h3, h4⟩ :=
    packMessages_spec (countTokensAM buffer p) maxTokens rows 0 (by simpa using h)
  exact ⟨h1, by simpa using h2, h3, h4, rfl⟩

/-- C5 (witness): with a zero buffer, budget 9, and ranked rows of 8, 5
and 1 tokens, only the first row is admitted (total 8 ≤ 9), and the loop
stops at the second even though the third would have fit. -/
theorem getRelevantContext_budget_witness :
    (((getRelevantContextModel 0 Provider.openai [(msgT1, 0), (msgT2, 0), (msgT3, 0)] 9).2 :
        ℚ) ≤ 9) ∧
    (getRelevantContextModel 0 Provider.openai [(msgT1, 0), (msgT2, 0), (msgT3, 0)] 9).2 =
      ((getRelevantContextModel 0 Provider.openai
          [(msgT1, 0), (msgT2, 0), (msgT3, 0)] 9).1.map
        fun m => countTokensAM 0 Provider.openai m.content).sum ∧
    (getRelevantContextModel 0 Provider.openai [(msgT1, 0), (msgT2, 0), (msgT3, 0)] 9).1 <+:
      [(msgT1, (0 : ℚ)), (msgT2, 0), (msgT3, 0)].map Prod.fst ∧
    (∀ (m : Message) (rest : List Message),
      [(msgT1, (0 : ℚ)), (msgT2, 0), (msgT3, 0)].map Prod.fst =
        (getRelevantContextModel 0 Provider.openai
          [(msgT1, 0), (msgT2, 0), (msgT3, 0)] 9).1 ++ m :: rest →
      (9 : ℚ) < (((getRelevantContextModel 0 Provider.openai
          [(msgT1, 0), (msgT2, 0), (msgT3, 0)] 9).2 +
        countTokensAM 0 Provider.openai m.content : ℕ) : ℚ)) ∧
    getSemanticMemoriesModel 0 Provider.openai [(msgT1, 0), (msgT2, 0), (msgT3, 0)] 9 =
      getRelevantContextModel 0 Provider.openai [(msgT1, 0), (msgT2, 0), (msgT3, 0)] 9 :=
  getRelevantContext_budget 0 Provider.openai [(msgT1, 0), (msgT2, 0), (msgT3, 0)] 9
    (by norm_num)

/-- Group insertion preserves non-emptiness of every group. -/
theorem insertGroup_ne_nil {k : String} {m : Message} :
    ∀ acc : List (String × List Message), (∀ g ∈ acc, g.2 ≠ []) →
      ∀ g ∈ insertGroup k m acc, g.2 ≠ [] := by
  intro acc
  induction acc with
  | nil =>
    intro _ g hg
    rcases List.mem_singleton.mp hg with rfl
    simp
  | cons hd rest ih =>
    intro hacc g hg
    obtain ⟨k', h'⟩ := hd
    by_cases hk : k' = k
    · rw [insertGroup, if_pos hk] at hg
      rcases List.mem_cons.mp hg with rfl | hg'
      · simp
      · exact hacc g (List.mem_cons_of_mem _ hg')
    · rw [insertGroup, if_neg hk] at hg
      rcases List.mem_cons.mp hg with rfl | hg'
      · exact hacc (k', h') (List.mem_cons_self _ _)
      · exact ih (fun g' hg'' => hacc g' (List.mem_cons_of_mem _ hg'')) g hg'

/-- The grouping fold over any key function preserves non-emptiness of
every group. -/
theorem groupFold_ne_nil (key : Message → String) :
    ∀ (ms : List Message) (acc : List (String × List Message)),
      (∀ g ∈ acc, g.2 ≠ []) →
      ∀ g ∈ List.foldl (fun a m => insertGroup (key m) m a) acc ms, g.2 ≠ [] := by
  intro ms
  induction ms with
  | nil => intro acc hacc; simpa using hacc
  | cons m ms ih =>
    intro acc hacc
    exact ih _ (insertGroup_ne_nil acc hacc)

/-- Every group produced by the orchestrator's grouping is non-empty. -/
theorem groupEligible_ne_nil (ms : List Message) :
    ∀ g ∈ groupEligible ms, g.2 ≠ [] :=
  groupFold_ne_nil (fun m => m.conversation) ms [] (by simp)

/-- Group insertion grows the total group size by one. -/
theorem sum_insertGroup (k : String) (m : Message) :
    ∀ acc : List (String × List Message),
      ((insertGroup k m acc).map fun g => g.2.length).sum =
        ((acc.map fun g => g.2.length).sum) + 1 := by
  intro acc
  induction acc with
  | nil => simp [insertGroup]
  | cons hd rest ih =>
    obtain ⟨k', h'⟩ := hd
    by_cases hk : k' = k <;> simp [insertGroup, hk, ih] <;> omega

/-- The grouping fold over any key function adds one element per memory
to the total group size. -/
theorem sum_groupFold (key : Message → String) :
    ∀ (ms : List Message) (acc : List (String × List Message)),
      ((List.foldl (fun a m => insertGroup (key m) m a) acc ms).map
        fun g => g.2.length).sum =
        ((acc.map fun g => g.2.length).sum) + ms.length := by
  intro ms
  induction ms with
  | nil => intro acc; simp
  | cons m ms ih =>
    intro acc
    rw [List.foldl_cons, ih, sum_insertGroup]
    simp
    omega

/-- The orchestrator's groups partition the eligible memories: the group
sizes sum to the eligible count. -/
theorem sum_groupEligible (ms : List Message) :
    ((groupEligible ms).map fun g => g.2.length).sum = ms.length := by
  simpa using sum_groupFold (fun m => m.conversation) ms []

/-- On all-non-empty groups, the summarisation loop succeeds and its
compressed-memory count is the total group size. -/
theorem compressGroups_ok (tk : String → ℕ) (agentId : String) :
    ∀ groups : List (String × List Message), (∀ g ∈ groups, g.2 ≠ []) →
      ∃ n r : ℤ, compressGroups tk agentId groups =
        Except.ok ((((groups.map fun g => g.2.length).sum : ℕ) : ℤ), n, r) := by
  intro groups
  induction groups with
  | nil => intro _; exact ⟨0, 0, by simp [compressGroups]⟩
  | cons g rest ih =>
    intro h
    obtain ⟨cid, ms⟩ := g
    have hms : ms ≠ [] := h (cid, ms) (List.mem_cons_self _ _)
    obtain ⟨n, r, hok⟩ := ih fun g' hg' => h g' (List.mem_cons_of_mem _ hg')
    obtain ⟨a, l, rfl⟩ : ∃ a l, ms = a :: l := by
      cases ms with
      | nil => exact absurd rfl hms
      | cons a l => exact ⟨a, l, rfl⟩
    obtain ⟨s, hs⟩ :
        ∃ s, compressMemoriesService tk agentId (some cid) (a :: l) = Except.ok s :=
      ⟨_, rfl⟩
    refine ⟨n + 1, r + ((s.originalTokenCount : ℤ) - (s.tokenCount : ℤ)), ?_⟩
    simp only [compressGroups, hs, hok, List.map_cons, List.sum_cons, List.length_cons,
      Except.ok.injEq, Prod.mk.injEq]
    push_cast
    ring_nf
    exact ⟨trivial, trivial⟩

/-- The eligible set of any single-strategy or hybrid filter is no larger
than its input pool. -/
theorem filterCompressionCandidates_length_le (tk : String → ℕ) (cfg : CompressionConfig)
    (cutoff : ℤ) (ms : List Message) :
    (filterCompressionCandidates tk cfg cutoff ms).length ≤ ms.length := by
  unfold filterCompressionCandidates
  cases cfg.strategy with
  | time_based => exact List.length_filter_le _ ms
  | importance_based => exact List.length_filter_le _ ms
  | token_based =>
    calc (filterByTokens tk cfg ms).length
        ≤ (sortByTimestamp ms).length :=
          (filterByTokensGo_sublist tk cfg.maxTokensBeforeCompression
            (sortByTimestamp ms) 0).length_le
      _ = ms.length := length_sortByTimestamp ms
  | hybrid => exact List.length_filter_le _ ms

/-- The analyzer's eligible set is no larger than the memory set. -/
theorem analyze_eligible_length_le (tk : String → ℕ) (cfg : CompressionConfig)
    (cutoff : ℤ) (ms : List Message) :
    (analyzeCompressionCandidates tk cfg cutoff ms).eligible.length ≤ ms.length := by
  have h2 :
      (jsSliceUpToLast (sortByTimestamp ms)
        (min cfg.preserveRecentCount (sortByTimestamp ms).length)).length ≤ ms.length := by
    unfold jsSliceUpToLast
    by_cases hz : min cfg.preserveRecentCount (sortByTimestamp ms).length = 0
    · simp [hz]
    · rw [if_neg hz]
      calc (List.take _ (sortByTimestamp ms)).length
          ≤ (sortByTimestamp ms).length := (List.take_sublist _ _).length_le
        _ = ms.length := length_sortByTimestamp ms
  exact le_trans
    (filterCompressionCandidates_length_le tk cfg cutoff _) h2

/-- C6: `compressMemories` always returns a result whose
`memoriesProcessed = memoriesCompressed + memoriesPreserved` with a
non-negative preserved count and `memoriesProcessed` the full memory
count; in the no-op case (empty eligible set) it reports
`memoriesCompressed = 0`, `memoriesPreserved = memoriesProcessed` and
`compressionRatio = 1.0`. -/
theorem compressMemoriesOrch_invariant (tk : String → ℕ) (cfg : CompressionConfig)
    (cutoff : ℤ) (agentId : String) (allMemories : List Message) :
    ∃ r, compressMemoriesOrch tk cfg cutoff agentId allMemories = Except.ok r ∧
      r.memoriesProcessed = r.memoriesCompressed + r.memoriesPreserved ∧
      0 ≤ r.memoriesPreserved ∧
      r.memoriesProcessed = (allMemories.length : ℤ) ∧
      ((analyzeCompressionCandidates tk cfg cutoff allMemories).eligible = [] →
        r.memoriesCompressed = 0 ∧ r.memoriesPreserved = r.memoriesProcessed ∧
        r.compressionRatio = 1) := by
  by_cases he : (analyzeCompressionCandidates tk cfg cutoff allMemories).eligible = []
  · have hEmpty :
        (analyzeCompressionCandidates tk cfg cutoff allMemories).eligible.isEmpty = true := by
      rw [he]; rfl
    simp only [compressMemoriesOrch]
    rw [if_pos hEmpty]
    refine ⟨_, rfl, ?_, ?_, rfl, fun _ => ⟨rfl, rfl, rfl⟩⟩
    · show (allMemories.length : ℤ) = 0 + (allMemories.length : ℤ)
      ring
    · show (0 : ℤ) ≤ (allMemories.length : ℤ)
      positivity
  · have hEmpty :
        ¬ ((analyzeCompressionCandidates tk cfg cutoff allMemories).eligible.isEmpty = true) := by
      cases hcase : (analyzeCompressionCandidates tk cfg cutoff allMemories).eligible with
      | nil => exact absurd hcase he
      | cons a l => simp [List.isEmpty]
    obtain ⟨n, r, hok⟩ := compressGroups_ok tk agentId
      (groupEligible (analyzeCompressionCandidates tk cfg cutoff allMemories).eligible)
      (groupEligible_ne_nil _)
    have hle :
        ((groupEligible (analyzeCompressionCandidates tk cfg cutoff
          allMemories).eligible).map fun g => g.2.length).sum ≤ allMemories.length := by
      rw [sum_groupEligible]
      exact analyze_eligible_length_le tk cfg cutoff allMemories
    simp only [compressMemoriesOrch]
    rw [if_neg hEmpty, hok]
    refine ⟨_, rfl, ?_, ?_, rfl, fun hcontra => absurd hcontra he⟩
    · show (allMemories.length : ℤ) =
        ((((groupEligible (analyzeCompressionCandidates tk cfg cutoff
            allMemories).eligible).map fun g => g.2.length).sum : ℕ) : ℤ) +
          ((allMemories.length : ℤ) -
            ((((groupEligible (analyzeCompressionCandidates tk cfg cutoff
              allMemories).eligible).map fun g => g.2.length).sum : ℕ) : ℤ))
      ring
    · show (0 : ℤ) ≤ (allMemories.length : ℤ) -
        ((((groupEligible (analyzeCompressionCandidates tk cfg cutoff
          allMemories).eligible).map fun g => g.2.length).sum : ℕ) : ℤ)
      omega

/-- C6 (witness): the invariant instantiated on a concrete one-memory
store with `preserveRecentCount = 0` (a no-op run: the whole list is
preserved by the `slice(-0)` behaviour, so nothing is eligible). -/
theorem compressMemoriesOrch_invariant_witness :
    ∃ r, compressMemoriesOrch tkOpenai cfgPreserveZero 0 "agent" [memA] = Except.ok r ∧
      r.memoriesProcessed = r.memoriesCompressed + r.memoriesPreserved ∧
      0 ≤ r.memoriesPreserved ∧
      r.memoriesProcessed = (([memA] : List Message).length : ℤ) ∧
      ((analyzeCompressionCandidates tkOpenai cfgPreserveZero 0 [memA]).eligible = [] →
        r.memoriesCompressed = 0 ∧ r.memoriesPreserved = r.memoriesProcessed ∧
        r.compressionRatio = 1) :=
  compressMemoriesOrch_invariant tkOpenai cfgPreserveZero 0 "agent" [memA]

end PgAgentMemory
